import Mathlib

/-!
Shallow embedding of the CardSense application logic.

The definitions below are translated from the application source:
the derived monthly summaries (`monthlySummary`, `cardExpenses`),
the card and transaction upsert handlers (`handleSaveCard`,
`handleSaveTransaction`), the SMS ingestion adapter (`handleParseSms`),
the card-editor form validation (`handleSubmit` of the AddCardModal),
and the spending-notification evaluation (`evalNotifications`).

Currency amounts (JS `number`) are modelled as rationals; the one place
where a JS `NaN` is representable (a card limit produced by `parseFloat`)
is modelled as `Option ℚ` with `none` standing for `NaN`.
Calendar dates are modelled by the pair of fields the code extracts
(`getFullYear`, `getMonth`).
-/

/-- The closed category enumeration from `types.ts`. -/
inductive Category where
  | Bills
  | Entertainment
  | Food
  | Shopping
  | Fuel
  | Groceries
  | Health
  | Office
  | Travel
  | Transfer
  | Other
deriving DecidableEq, Repr

/-- The `Categories` constant from `types.ts`, listing every category. -/
def Categories : List Category :=
  [.Bills, .Entertainment, .Food, .Shopping, .Fuel, .Groceries, .Health,
   .Office, .Travel, .Transfer, .Other]

/-- A calendar date, reduced to the two components the code reads
(`getFullYear()` and `getMonth()`). -/
structure Date where
  year : Nat
  month : Nat
deriving DecidableEq, Repr

/-- The `Card` record from `types.ts`.  `limit` is `none` when the stored
JS number is `NaN` (reachable through `parseFloat` in the card editor). -/
structure Card where
  id : String
  name : String
  last4 : String
  limit : Option ℚ
  gradient : String
deriving DecidableEq, Repr

/-- The `Transaction` record from `types.ts`. -/
structure Transaction where
  id : String
  cardId : String
  merchant : String
  amount : ℚ
  date : Date
  category : Category
deriving DecidableEq, Repr

/-- The `ParsedSmsData` record from `types.ts` (`category` is optional). -/
structure ParsedSmsData where
  merchant : String
  amount : ℚ
  cardLast4 : String
  category : Option Category
deriving DecidableEq, Repr

/-- The argument shape of `handleSaveTransaction` in `App.tsx`:
`Partial<Transaction> & merchant/amount/cardId/category`, as actually
passed by its two callers (an optional `id` and the four data fields;
no `date` is ever passed). -/
structure TxData where
  id : Option String
  cardId : String
  merchant : String
  amount : ℚ
  category : Category
deriving DecidableEq, Repr

/-- One entry of the monthly category summary pie data in `App.tsx`
(the `color` field is dropped as purely presentational). -/
structure PieEntry where
  name : Category
  value : ℚ
  percentage : ℚ
deriving DecidableEq, Repr

/-- The month filter used by both aggregations in `App.tsx`:
`txDate.getMonth() === currentMonth && txDate.getFullYear() === currentYear`. -/
def inCurrentMonth (now : Date) (tx : Transaction) : Bool :=
  tx.date.month == now.month && tx.date.year == now.year

/-- Sum of the `amount` fields of a transaction list. -/
def sumAmounts (l : List Transaction) : ℚ :=
  (l.map Transaction.amount).sum

/-- The loop body of the `monthlySummary` memo in `App.tsx`: for a
current-month transaction, add its amount to its category bucket and to
the running total. -/
def catSumStep (now : Date) (acc : (Category → ℚ) × ℚ) (tx : Transaction) :
    (Category → ℚ) × ℚ :=
  if inCurrentMonth now tx then
    (fun c => if c = tx.category then acc.1 tx.category + tx.amount else acc.1 c,
     acc.2 + tx.amount)
  else acc

/-- The per-category sums and the month total computed by the
`monthlySummary` memo in `App.tsx` (every category bucket starts at 0). -/
def monthlyCatSums (now : Date) (txs : List Transaction) : (Category → ℚ) × ℚ :=
  txs.foldl (catSumStep now) (fun _ => 0, 0)

/-- The descending-by-value sort applied to the pie data in `App.tsx`
(`.sort((a, b) => b.value - a.value)`). -/
def sortPie (l : List PieEntry) : List PieEntry :=
  l.mergeSort (fun a b => decide (b.value ≤ a.value))

/-- The `monthlySummary` memo of `App.tsx`: per-category current-month
sums, zero-amount categories dropped, mapped to pie entries carrying a
percentage of the month total, sorted descending by amount; paired with
the month total. -/
def monthlySummary (now : Date) (txs : List Transaction) :
    List PieEntry × ℚ :=
  let s := monthlyCatSums now txs
  let pie := (Categories.filter (fun c => decide (0 < s.1 c))).map
    (fun c => PieEntry.mk c (s.1 c)
      (if 0 < s.2 then s.1 c / s.2 * 100 else 0))
  (sortPie pie, s.2)

/-- The initial map of the `cardExpenses` memo in `App.tsx`:
every card id is given the bucket 0. -/
def initCardMap (cards : List Card) : String → Option ℚ :=
  cards.foldl (fun m c => fun k => if k = c.id then some 0 else m k)
    (fun _ => none)

/-- The loop body of the `cardExpenses` memo in `App.tsx`: for a
current-month transaction, add its amount to its card's bucket
(`expenses.get(tx.cardId) || 0` reads 0 for a missing bucket). -/
def cardExpStep (now : Date) (m : String → Option ℚ) (tx : Transaction) :
    String → Option ℚ :=
  if inCurrentMonth now tx then
    fun k => if k = tx.cardId then some ((m tx.cardId).getD 0 + tx.amount) else m k
  else m

/-- The `cardExpenses` memo of `App.tsx`: current-month spend per card id,
as a finite map modelled by a function into `Option ℚ`. -/
def cardExpenses (now : Date) (cards : List Card) (txs : List Transaction) :
    String → Option ℚ :=
  txs.foldl (cardExpStep now) (initCardMap cards)

/-- JavaScript `Array.prototype.findIndex`, with the `-1` sentinel
rendered as `none`. -/
def findIndex (p : α → Bool) : List α → Option Nat
  | [] => none
  | a :: l => if p a then some 0 else (findIndex p l).map (· + 1)

/-- `handleSaveCard` from `App.tsx`: replace the card at the first index
holding the saved id, or append when no card has that id. -/
def handleSaveCard (cards : List Card) (card : Card) : List Card :=
  match findIndex (fun c => c.id == card.id) cards with
  | some i => cards.set i card
  | none => cards ++ [card]

/-- `handleSaveTransaction` from `App.tsx`: with an `id` present, map
`{ ...tx, ...data }` over the list at matching ids (the spread carries no
`date`, so the stored date survives); without an `id`, append a fresh
record dated now. -/
def handleSaveTransaction (nowDate : Date) (newId : String)
    (txs : List Transaction) (data : TxData) : List Transaction :=
  match data.id with
  | some i =>
      txs.map (fun tx =>
        if tx.id = i then
          { tx with id := i, cardId := data.cardId, merchant := data.merchant,
                    amount := data.amount, category := data.category }
        else tx)
  | none =>
      txs ++ [⟨newId, data.cardId, data.merchant, data.amount, nowDate,
              data.category⟩]

/-- `handleParseSms` from `App.tsx`, with the awaited service response
passed in as `result`.  Returns the new transaction list together with
the error banner text, if any. -/
def handleParseSms (nowDate : Date) (newId : String) (cards : List Card)
    (txs : List Transaction) (smsInput : String)
    (result : Option ParsedSmsData) : List Transaction × Option String :=
  if smsInput.trim = "" then (txs, some "SMS message cannot be empty.")
  else if cards.length = 0 then (txs, some "Please add a credit card first.")
  else
    match result with
    | some r =>
        match cards.find? (fun c => c.last4 == r.cardLast4) with
        | some matchingCard =>
            (handleSaveTransaction nowDate newId txs
              ⟨none, matchingCard.id, r.merchant, r.amount,
               r.category.getD Category.Other⟩, none)
        | none =>
            (txs, some ("Could not find a card ending in " ++ r.cardLast4 ++ "."))
    | none => (txs, some "Failed to parse SMS. Please try a different format.")

/-- Value of a list of decimal digit characters. -/
def digitsToNat (l : List Char) : Nat :=
  l.foldl (fun n c => 10 * n + (c.toNat - 48)) 0

/-- JavaScript `parseFloat`, restricted to the finite case: leading
whitespace, an optional sign, a decimal mantissa and an optional decimal
exponent are consumed as a prefix; `none` stands for `NaN`
(no parsable numeric prefix). -/
def parseFloat (s : String) : Option ℚ :=
  let l := s.data.dropWhile (fun c =>
    c = ' ' ∨ c = '\t' ∨ c = '\n' ∨ c = '\r')
  let signed : ℚ × List Char :=
    match l with
    | '-' :: t => (-1, t)
    | '+' :: t => (1, t)
    | _ => (1, l)
  let intPart := signed.2.takeWhile Char.isDigit
  let l2 := signed.2.dropWhile Char.isDigit
  let fracSplit : List Char × List Char :=
    match l2 with
    | '.' :: t => (t.takeWhile Char.isDigit, t.dropWhile Char.isDigit)
    | _ => ([], l2)
  if intPart = [] ∧ fracSplit.1 = [] then none
  else
    let mantissa : ℚ :=
      (digitsToNat intPart : ℚ) +
        (digitsToNat fracSplit.1 : ℚ) / ((10 : ℚ) ^ fracSplit.1.length)
    let expPart : Option Int :=
      match fracSplit.2 with
      | 'e' :: t =>
          match t with
          | '-' :: u =>
              if u.takeWhile Char.isDigit = [] then none
              else some (-(digitsToNat (u.takeWhile Char.isDigit) : Int))
          | '+' :: u =>
              if u.takeWhile Char.isDigit = [] then none
              else some (digitsToNat (u.takeWhile Char.isDigit) : Int)
          | _ =>
              if t.takeWhile Char.isDigit = [] then none
              else some (digitsToNat (t.takeWhile Char.isDigit) : Int)
      | 'E' :: t =>
          match t with
          | '-' :: u =>
              if u.takeWhile Char.isDigit = [] then none
              else some (-(digitsToNat (u.takeWhile Char.isDigit) : Int))
          | '+' :: u =>
              if u.takeWhile Char.isDigit = [] then none
              else some (digitsToNat (u.takeWhile Char.isDigit) : Int)
          | _ =>
              if t.takeWhile Char.isDigit = [] then none
              else some (digitsToNat (t.takeWhile Char.isDigit) : Int)
      | _ => none
    some (signed.1 * mantissa * (10 : ℚ) ^ (expPart.getD 0))

/-- The JavaScript comparison `x <= 0` on the result of `parseFloat`:
false when the value is `NaN`. -/
def jsNonPos (v : Option ℚ) : Bool :=
  match v with
  | some q => decide (q ≤ 0)
  | none => false

/-- The card editor's last-4-digits check, `/^\d{4}$/.test(last4)`. -/
def last4Valid (s : String) : Bool :=
  s.length == 4 && s.data.all Char.isDigit

/-- Result of a card-editor form submission. -/
inductive SubmitResult where
  | error (msg : String)
  | saved (card : Card)
deriving DecidableEq, Repr

/-- `handleSubmit` of `AddCardModal.tsx`: the validation chain over the
three form fields, committing an upsert-ready card on success.  `newId`
and `gradient` stand for the freshly generated id and the randomly chosen
gradient of the new-card branch. -/
def handleSubmit (newId gradient : String) (cards : List Card)
    (cardToEdit : Option Card) (name last4 limit : String) : SubmitResult :=
  let trimmedName := name.trim
  if trimmedName = "" ∨ last4 = "" ∨ limit = "" then
    .error "All fields are required."
  else if last4Valid last4 = false then
    .error "Last 4 digits must be exactly 4 numbers."
  else if jsNonPos (parseFloat limit) then
    .error "Limit must be a positive number."
  else if cards.any (fun card =>
      (cardToEdit.all fun ce => card.id != ce.id) &&
        card.name.trim.toLower == trimmedName.toLower) then
    .error "A card with this name already exists."
  else if cards.any (fun card =>
      (cardToEdit.all fun ce => card.id != ce.id) && card.last4 == last4) then
    .error "A card with these last 4 digits already exists."
  else
    .saved
      { id := match cardToEdit with | some ce => ce.id | none => newId,
        name := trimmedName,
        last4 := last4,
        limit := parseFloat limit,
        gradient := match cardToEdit with | some ce => ce.gradient | none => gradient }

/-- The spend-percentage computation of `App.tsx`
(`card.limit > 0 ? (spent / card.limit) * 100 : 0`); a `NaN` limit fails
the `> 0` guard just as a nonpositive one does. -/
def cardPercentage (limit : Option ℚ) (spent : ℚ) : ℚ :=
  match limit with
  | some v => if 0 < v then spent / v * 100 else 0
  | none => 0

/-- The fixed alert thresholds of the notification effect in `App.tsx`. -/
def thresholds : List Nat := [30, 50, 85]

/-- The notification key of `App.tsx`:
`card.id-currentYear-currentMonth-threshold`. -/
def notifKey (cardId : String) (year month threshold : Nat) : String :=
  cardId ++ "-" ++ toString year ++ "-" ++ toString month ++ "-" ++
    toString threshold

/-- The inner loop body of the notification effect in `App.tsx`: fire and
record the key when the percentage has reached the threshold and the key
is absent from the render-time sent map `sent0`.  The accumulator pairs
the sent-key set being built by the functional state updates with the
list of alerts emitted during this evaluation. -/
def notifStep (now : Date) (sent0 : List String) (spentOf : String → ℚ)
    (card : Card) (acc : List String × List String) (t : Nat) :
    List String × List String :=
  let key := notifKey card.id now.year now.month t
  if (t : ℚ) ≤ cardPercentage card.limit (spentOf card.id) ∧ key ∉ sent0 then
    (key :: acc.1, acc.2 ++ [key])
  else acc

/-- One run of the spending-notification `useEffect` of `App.tsx`, with
`spentOf` standing for `cardExpenses.get(card.id) || 0` and `sent0` for
the `sentNotifications` map visible to that run.  Returns the sent map
after the run together with the alerts emitted during it. -/
def evalNotifications (now : Date) (cards : List Card)
    (spentOf : String → ℚ) (sent0 : List String) :
    List String × List String :=
  cards.foldl
    (fun acc card => thresholds.foldl (notifStep now sent0 spentOf card) acc)
    (sent0, [])

/-- A concrete card used in the notifier scenario of the spec:
limit 1000. -/
def demoCard : Card :=
  { id := "c1", name := "Visa", last4 := "1111", limit := some 1000,
    gradient := "from-blue-400 to-purple-500" }

/-- A concrete evaluation date for the notifier scenario. -/
def demoDate : Date := { year := 2025, month := 9 }

/-- A transaction list realising the spec example: two current-month
transactions of 20 and 30 on card `c1`. -/
def demoTxs : List Transaction :=
  [⟨"t1", "c1", "Coffee", 20, demoDate, .Food⟩,
   ⟨"t2", "c1", "Books", 30, demoDate, .Bills⟩]

/-- A second concrete card, used by the uniqueness and upsert witnesses. -/
def demoCard2 : Card :=
  { id := "c2", name := "Chase Freedom", last4 := "2222", limit := some 500,
    gradient := "from-green-400 to-blue-500" }

theorem foldl_invariant {α β : Type _} (P : β → Prop) (f : β → α → β) :
    ∀ (l : List α) (b : β), P b → (∀ b a, a ∈ l → P b → P (f b a)) →
      P (l.foldl f b) := by
  intro l
  induction l with
  | nil => intro b hb _; exact hb
  | cons a l ih =>
      intro b hb hstep
      exact ih (f b a) (hstep b a (List.mem_cons_self a l) hb)
        (fun b' a' ha' => hstep b' a' (List.mem_cons_of_mem a ha'))

/-- C9: for a card whose limit is 0, the spend-percentage computation
returns 0 for every spend value; the `limit > 0` guard prevents the
division. -/
theorem cardPercentage_zero_limit (card : Card) (spent : ℚ)
    (h : card.limit = some 0) : cardPercentage card.limit spent = 0 := by
  rw [h]
  simp [cardPercentage]

/-- Witness for `cardPercentage_zero_limit` at a concrete zero-limit card
and spend 320. -/
theorem cardPercentage_zero_limit_witness :
    ({ demoCard with limit := some 0 } : Card).limit = some 0 ∧
    cardPercentage ({ demoCard with limit := some 0 } : Card).limit 320 = 0 :=
  ⟨rfl, cardPercentage_zero_limit { demoCard with limit := some 0 } 320 rfl⟩

theorem findIndex_lt_length {α : Type _} {p : α → Bool} :
    ∀ {l : List α} {i : Nat}, findIndex p l = some i → i < l.length := by
  intro l
  induction l with
  | nil => intro i h; simp [findIndex] at h
  | cons a l ih =>
      intro i h
      rw [findIndex] at h
      by_cases hp : p a
      · rw [if_pos hp] at h
        injection h with h
        subst h
        simp
      · rw [if_neg hp] at h
        obtain ⟨j, hj, hji⟩ := Option.map_eq_some'.mp h
        subst hji
        have := ih hj
        simp only [List.length_cons]
        omega

theorem findIndex_isSome_of_exists {α : Type _} {p : α → Bool} :
    ∀ {l : List α}, (∃ a ∈ l, p a = true) → ∃ i, findIndex p l = some i := by
  intro l
  induction l with
  | nil => intro h; simp at h
  | cons a l ih =>
      intro h
      by_cases hp : p a
      · exact ⟨0, by simp [findIndex, hp]⟩
      · obtain ⟨b, hb, hpb⟩ := h
        rcases List.mem_cons.mp hb with rfl | hb'
        · exact absurd hpb hp
        · obtain ⟨j, hj⟩ := ih ⟨b, hb', hpb⟩
          exact ⟨j + 1, by simp [findIndex, hp, hj]⟩

/-- C10: `handleSaveCard` is an upsert by id.  When a card with the saved
id exists, the first such index is found, the card is replaced there,
and length and all other positions are unchanged; otherwise the card is
appended and the length grows by one. -/
theorem handleSaveCard_upsert (cards : List Card) (card : Card) :
    ((∃ c ∈ cards, c.id = card.id) →
      ∃ i, findIndex (fun c => c.id == card.id) cards = some i) ∧
    (∀ i, findIndex (fun c => c.id == card.id) cards = some i →
      (handleSaveCard cards card).length = cards.length ∧
      (handleSaveCard cards card)[i]? = some card ∧
      ∀ j, j ≠ i → (handleSaveCard cards card)[j]? = cards[j]?) ∧
    (findIndex (fun c => c.id == card.id) cards = none →
      handleSaveCard cards card = cards ++ [card] ∧
      (handleSaveCard cards card).length = cards.length + 1) := by
  refine ⟨?_, ?_, ?_⟩
  · intro ⟨c, hc, hid⟩
    exact findIndex_isSome_of_exists ⟨c, hc, by simp [hid]⟩
  · intro i hi
    have hlt : i < cards.length := findIndex_lt_length hi
    unfold handleSaveCard
    rw [hi]
    refine ⟨by simp, List.getElem?_set_self hlt, ?_⟩
    intro j hj
    exact List.getElem?_set_ne (fun h => hj h.symm)
  · intro h
    unfold handleSaveCard
    rw [h]
    exact ⟨rfl, by simp⟩

/-- Witness for `handleSaveCard_upsert`: replacing the card with id `c1`
in a two-card list keeps the length, places the replacement at index 0
and leaves index 1 untouched. -/
theorem handleSaveCard_upsert_witness :
    (∃ c ∈ [demoCard, demoCard2], c.id = ({ demoCard with name := "New" } : Card).id) ∧
    findIndex (fun c => c.id == ({ demoCard with name := "New" } : Card).id)
      [demoCard, demoCard2] = some 0 ∧
    (handleSaveCard [demoCard, demoCard2] { demoCard with name := "New" }).length =
      ([demoCard, demoCard2] : List Card).length ∧
    (handleSaveCard [demoCard, demoCard2] { demoCard with name := "New" })[0]? =
      some { demoCard with name := "New" } ∧
    (handleSaveCard [demoCard, demoCard2] { demoCard with name := "New" })[1]? =
      ([demoCard, demoCard2] : List Card)[1]? := by
  have hfind : findIndex (fun c => c.id == ({ demoCard with name := "New" } : Card).id)
      [demoCard, demoCard2] = some 0 := by decide
  have h := (handleSaveCard_upsert [demoCard, demoCard2]
    { demoCard with name := "New" }).2.1 0 hfind
  exact ⟨⟨demoCard, by simp, rfl⟩, hfind, h.1, h.2.1, h.2.2 1 (by decide)⟩

/-- C5: saving over an existing transaction id maps the update over the
list, so the length is unchanged, records with other ids survive intact,
and the edited record keeps its identifier and its original date. -/
theorem handleSaveTransaction_edit (nowDate : Date) (newId : String)
    (txs : List Transaction) (data : TxData) (i : String)
    (hid : data.id = some i) (hocc : ∃ tx ∈ txs, tx.id = i) :
    (handleSaveTransaction nowDate newId txs data).length = txs.length ∧
    (∀ (k : Nat) (tx : Transaction), txs[k]? = some tx → tx.id ≠ i →
      (handleSaveTransaction nowDate newId txs data)[k]? = some tx) ∧
    (∀ (k : Nat) (tx : Transaction), txs[k]? = some tx → tx.id = i →
      ∃ tx2, (handleSaveTransaction nowDate newId txs data)[k]? = some tx2 ∧
        tx2.id = tx.id ∧ tx2.date = tx.date) := by
  refine ⟨?_, ?_, ?_⟩
  · simp [handleSaveTransaction, hid]
  · intro k tx h hne
    simp only [handleSaveTransaction, hid, List.getElem?_map, h, Option.map_some']
    rw [if_neg hne]
  · intro k tx h heq
    simp only [handleSaveTransaction, hid, List.getElem?_map, h, Option.map_some']
    rw [if_pos heq]
    exact ⟨_, rfl, heq.symm, rfl⟩

/-- Witness for `handleSaveTransaction_edit`: editing transaction `t2`
in the demo list keeps both records' positions, ids and dates. -/
theorem handleSaveTransaction_edit_witness :
    (⟨some "t2", "c1", "Games", 35, .Entertainment⟩ : TxData).id = some "t2" ∧
    (∃ tx ∈ demoTxs, tx.id = "t2") ∧
    (handleSaveTransaction ⟨2025, 10⟩ "tx-9" demoTxs
      ⟨some "t2", "c1", "Games", 35, .Entertainment⟩).length = demoTxs.length ∧
    (handleSaveTransaction ⟨2025, 10⟩ "tx-9" demoTxs
      ⟨some "t2", "c1", "Games", 35, .Entertainment⟩)[0]? = demoTxs[0]? ∧
    (∃ tx2, (handleSaveTransaction ⟨2025, 10⟩ "tx-9" demoTxs
        ⟨some "t2", "c1", "Games", 35, .Entertainment⟩)[1]? = some tx2 ∧
      tx2.id = "t2" ∧ tx2.date = demoDate) := by
  have h := handleSaveTransaction_edit ⟨2025, 10⟩ "tx-9" demoTxs
    ⟨some "t2", "c1", "Games", 35, .Entertainment⟩ "t2" rfl
    ⟨⟨"t2", "c1", "Books", 30, demoDate, .Bills⟩, by decide, rfl⟩
  refine ⟨rfl, ⟨⟨"t2", "c1", "Books", 30, demoDate, .Bills⟩, by decide, rfl⟩,
    h.1, ?_, ?_⟩
  · have := h.2.1 0 ⟨"t1", "c1", "Coffee", 20, demoDate, .Food⟩ (by decide)
      (by decide)
    rw [this]; decide
  · obtain ⟨tx2, htx2, hid2, hdate2⟩ := h.2.2 1 ⟨"t2", "c1", "Books", 30, demoDate, .Bills⟩
      (by decide) rfl
    exact ⟨tx2, htx2, hid2, hdate2⟩

/-- C3: a structurally valid SMS parse whose last-4 digits match no card
yields the card-not-found banner naming the digits and leaves the
transaction list untouched. -/
theorem handleParseSms_card_not_found (nowDate : Date) (newId : String)
    (cards : List Card) (txs : List Transaction) (smsInput : String)
    (r : ParsedSmsData) (h1 : smsInput.trim ≠ "") (h2 : cards.length ≠ 0)
    (h3 : ∀ c ∈ cards, c.last4 ≠ r.cardLast4) :
    handleParseSms nowDate newId cards txs smsInput (some r) =
      (txs, some ("Could not find a card ending in " ++ r.cardLast4 ++ ".")) := by
  have hfind : cards.find? (fun c => c.last4 == r.cardLast4) = none := by
    rw [List.find?_eq_none]
    intro c hc
    simpa using h3 c hc
  simp [handleParseSms, h1, h2, hfind]

/-- Witness for `handleParseSms_card_not_found`: a parse naming digits
9999 against the demo card list commits nothing. -/
theorem handleParseSms_card_not_found_witness :
    ("Spent 45 at Amazon card 9999".trim ≠ "") ∧
    (([demoCard] : List Card).length ≠ 0) ∧
    (∀ c ∈ [demoCard], c.last4 ≠ "9999") ∧
    handleParseSms demoDate "tx-1" [demoCard] demoTxs
      "Spent 45 at Amazon card 9999" (some ⟨"Amazon", 45, "9999", none⟩) =
      (demoTxs, some "Could not find a card ending in 9999.") := by
  refine ⟨?_, by decide, ?_, ?_⟩
  · with_unfolding_all decide
  · intro c hc
    rcases List.mem_singleton.mp hc with rfl
    decide
  · have := handleParseSms_card_not_found demoDate "tx-1" [demoCard] demoTxs
      "Spent 45 at Amazon card 9999" ⟨"Amazon", 45, "9999", none⟩
      (by with_unfolding_all decide) (by decide)
      (by intro c hc; rcases List.mem_singleton.mp hc with rfl; decide)
    simpa using this

theorem cardExpenses_loop (now : Date) :
    ∀ (txs : List Transaction) (m : String → Option ℚ) (k : String) (v : ℚ),
      m k = some v →
      txs.foldl (cardExpStep now) m k =
        some (v + sumAmounts (txs.filter
          (fun tx => inCurrentMonth now tx && tx.cardId == k))) := by
  intro txs
  induction txs with
  | nil => intro m k v h; simpa [sumAmounts] using h
  | cons tx txs ih =>
      intro m k v h
      simp only [List.foldl_cons]
      by_cases hmon : inCurrentMonth now tx
      · by_cases hk : k = tx.cardId
        · have hstep : cardExpStep now m tx k = some (v + tx.amount) := by
            rw [hk] at h
            simp [cardExpStep, hmon, hk, h]
          rw [ih (cardExpStep now m tx) k (v + tx.amount) hstep]
          have hfil : (tx :: txs).filter
              (fun t => inCurrentMonth now t && t.cardId == k) =
              tx :: txs.filter (fun t => inCurrentMonth now t && t.cardId == k) := by
            simp [List.filter_cons, hmon, hk]
          rw [hfil]
          simp [sumAmounts, add_assoc]
        · have hstep : cardExpStep now m tx k = some v := by
            simp only [cardExpStep, if_pos hmon]
            rw [if_neg hk]
            exact h
          rw [ih (cardExpStep now m tx) k v hstep]
          have hfil : (tx :: txs).filter
              (fun t => inCurrentMonth now t && t.cardId == k) =
              txs.filter (fun t => inCurrentMonth now t && t.cardId == k) := by
            have : (tx.cardId == k) = false := by
              simp
              intro hkk
              exact absurd hkk.symm hk
            simp [List.filter_cons, this]
          rw [hfil]
      · have hstep : cardExpStep now m tx = m := by
          simp only [cardExpStep, if_neg hmon]
        rw [hstep, ih m k v h]
        have hfil : (tx :: txs).filter
            (fun t => inCurrentMonth now t && t.cardId == k) =
            txs.filter (fun t => inCurrentMonth now t && t.cardId == k) := by
          simp [List.filter_cons, hmon]
        rw [hfil]

theorem initCardMap_loop :
    ∀ (l : List Card) (m : String → Option ℚ) (k : String),
      (m k = some 0 ∨ ∃ c ∈ l, c.id = k) →
      l.foldl (fun m c => fun k => if k = c.id then some 0 else m k) m k = some 0 := by
  intro l
  induction l with
  | nil =>
      intro m k h
      rcases h with h | ⟨c, hc, _⟩
      · exact h
      · simp at hc
  | cons a l ih =>
      intro m k h
      simp only [List.foldl_cons]
      apply ih
      by_cases hk : k = a.id
      · left; simp [hk]
      · rcases h with h | ⟨c, hc, hcid⟩
        · left; simp [hk, h]
        · rcases List.mem_cons.mp hc with rfl | hc'
          · exact absurd hcid.symm hk
          · right; exact ⟨c, hc', hcid⟩

theorem initCardMap_mem (cards : List Card) (c : Card) (hc : c ∈ cards) :
    initCardMap cards c.id = some 0 :=
  initCardMap_loop cards (fun _ => none) c.id (Or.inr ⟨c, hc, rfl⟩)

/-- C1: the monthly per-card summary entry for a card in the list equals
the sum of the amounts of exactly the current-month transactions on that
card; other months, years and cards contribute nothing. -/
theorem cardExpenses_entry (now : Date) (cards : List Card)
    (txs : List Transaction) (c : Card) (hc : c ∈ cards) :
    cardExpenses now cards txs c.id =
      some (sumAmounts (txs.filter
        (fun tx => inCurrentMonth now tx && tx.cardId == c.id))) := by
  have h0 : initCardMap cards c.id = some 0 := initCardMap_mem cards c hc
  have := cardExpenses_loop now txs (initCardMap cards) c.id 0 h0
  simpa [cardExpenses] using this

/-- Witness for `cardExpenses_entry`: two current-month transactions of
20 and 30 on the demo card give a summary entry of 50. -/
theorem cardExpenses_entry_witness :
    demoCard ∈ [demoCard] ∧
    cardExpenses demoDate [demoCard] demoTxs demoCard.id =
      some (sumAmounts (demoTxs.filter
        (fun tx => inCurrentMonth demoDate tx && tx.cardId == demoCard.id))) ∧
    cardExpenses demoDate [demoCard] demoTxs "c1" = some 50 := by
  refine ⟨List.mem_singleton.mpr rfl, cardExpenses_entry demoDate [demoCard]
    demoTxs demoCard (List.mem_singleton.mpr rfl), ?_⟩
  with_unfolding_all decide

theorem notifStep_fst_mono (now : Date) (sent0 : List String)
    (spentOf : String → ℚ) (card : Card) (key : String)
    (acc : List String × List String) (t : Nat) (h : key ∈ acc.1) :
    key ∈ (notifStep now sent0 spentOf card acc t).1 := by
  simp only [notifStep]
  split
  · exact List.mem_cons_of_mem _ h
  · exact h

theorem notifStep_snd_mono (now : Date) (sent0 : List String)
    (spentOf : String → ℚ) (card : Card) (key : String)
    (acc : List String × List String) (t : Nat) (h : key ∈ acc.2) :
    key ∈ (notifStep now sent0 spentOf card acc t).2 := by
  simp only [notifStep]
  split
  · exact List.mem_append_left _ h
  · exact h

theorem notifStep_snd_in_fst (now : Date) (sent0 : List String)
    (spentOf : String → ℚ) (card : Card)
    (acc : List String × List String) (t : Nat)
    (h : ∀ k ∈ acc.2, k ∈ acc.1) :
    ∀ k ∈ (notifStep now sent0 spentOf card acc t).2,
      k ∈ (notifStep now sent0 spentOf card acc t).1 := by
  simp only [notifStep]
  split
  · intro k hk
    rcases List.mem_append.mp hk with hk' | hk'
    · exact List.mem_cons_of_mem _ (h k hk')
    · rcases List.mem_singleton.mp hk' with rfl
      exact List.mem_cons_self _ _
  · exact h

theorem notifStep_not_fired (now : Date) (sent0 : List String)
    (spentOf : String → ℚ) (card : Card) (key : String) (hkey : key ∈ sent0)
    (acc : List String × List String) (t : Nat) (h : key ∉ acc.2) :
    key ∉ (notifStep now sent0 spentOf card acc t).2 := by
  simp only [notifStep]
  split
  · rename_i hcond
    intro hmem
    rcases List.mem_append.mp hmem with hk' | hk'
    · exact h hk'
    · rcases List.mem_singleton.mp hk' with rfl
      exact hcond.2 hkey
  · exact h

theorem notif_inner_fst_mono (now : Date) (sent0 : List String)
    (spentOf : String → ℚ) (card : Card) (key : String) (ts : List Nat)
    (acc : List String × List String) (h : key ∈ acc.1) :
    key ∈ (ts.foldl (notifStep now sent0 spentOf card) acc).1 :=
  foldl_invariant (fun acc => key ∈ acc.1) _ ts acc h
    (fun b a _ hb => notifStep_fst_mono now sent0 spentOf card key b a hb)

theorem notif_inner_snd_mono (now : Date) (sent0 : List String)
    (spentOf : String → ℚ) (card : Card) (key : String) (ts : List Nat)
    (acc : List String × List String) (h : key ∈ acc.2) :
    key ∈ (ts.foldl (notifStep now sent0 spentOf card) acc).2 :=
  foldl_invariant (fun acc => key ∈ acc.2) _ ts acc h
    (fun b a _ hb => notifStep_snd_mono now sent0 spentOf card key b a hb)

theorem notif_inner_fire (now : Date) (sent0 : List String)
    (spentOf : String → ℚ) (card : Card) :
    ∀ (ts : List Nat) (acc : List String × List String) (t : Nat), t ∈ ts →
      (t : ℚ) ≤ cardPercentage card.limit (spentOf card.id) →
      notifKey card.id now.year now.month t ∉ sent0 →
      notifKey card.id now.year now.month t ∈
        (ts.foldl (notifStep now sent0 spentOf card) acc).2 := by
  intro ts
  induction ts with
  | nil => intro acc t ht; simp at ht
  | cons t0 ts ih =>
      intro acc t ht hpct hnot
      rcases List.mem_cons.mp ht with rfl | ht'
      · have hstep : notifKey card.id now.year now.month t ∈
            (notifStep now sent0 spentOf card acc t).2 := by
          simp only [notifStep]
          rw [if_pos ⟨hpct, hnot⟩]
          simp
        exact notif_inner_snd_mono now sent0 spentOf card _ ts _ hstep
      · exact ih _ t ht' hpct hnot

theorem notif_outer_snd_mono (now : Date) (sent0 : List String)
    (spentOf : String → ℚ) (key : String) (cs : List Card)
    (acc : List String × List String) (h : key ∈ acc.2) :
    key ∈ (cs.foldl (fun acc card =>
      thresholds.foldl (notifStep now sent0 spentOf card) acc) acc).2 :=
  foldl_invariant (fun acc => key ∈ acc.2) _ cs acc h
    (fun b a _ hb => notif_inner_snd_mono now sent0 spentOf a key thresholds b hb)

theorem notif_outer_fire (now : Date) (sent0 : List String)
    (spentOf : String → ℚ) (card : Card) (t : Nat) (ht : t ∈ thresholds)
    (hpct : (t : ℚ) ≤ cardPercentage card.limit (spentOf card.id))
    (hnot : notifKey card.id now.year now.month t ∉ sent0) :
    ∀ (cs : List Card) (acc : List String × List String), card ∈ cs →
      notifKey card.id now.year now.month t ∈
        (cs.foldl (fun acc c =>
          thresholds.foldl (notifStep now sent0 spentOf c) acc) acc).2 := by
  intro cs
  induction cs with
  | nil => intro acc hcard; simp at hcard
  | cons c0 cs ih =>
      intro acc hcard
      simp only [List.foldl_cons]
      rcases List.mem_cons.mp hcard with rfl | hcard'
      · exact notif_outer_snd_mono now sent0 spentOf _ cs _
          (notif_inner_fire now sent0 spentOf card thresholds acc t ht hpct hnot)
      · exact ih _ hcard'

set_option maxRecDepth 100000 in
/-- C2: one notifier evaluation never re-fires a key already recorded in
the sent map, every alert it emits is recorded in the resulting sent map
(and recorded keys persist), and a key whose threshold is reached while
unrecorded does fire.  The closing conjuncts replay the spec scenario:
limit 1000, spend 250 fires nothing, spend 320 fires exactly the 30%
alert, and re-evaluating with unchanged spend fires nothing further. -/
theorem notifier_once_per_key (now : Date) (cards : List Card)
    (spentOf : String → ℚ) (sent0 : List String) (key : String) :
    (key ∈ sent0 → key ∉ (evalNotifications now cards spentOf sent0).2) ∧
    (∀ k ∈ (evalNotifications now cards spentOf sent0).2,
      k ∈ (evalNotifications now cards spentOf sent0).1) ∧
    (key ∈ sent0 → key ∈ (evalNotifications now cards spentOf sent0).1) ∧
    (∀ card ∈ cards, ∀ t ∈ thresholds,
      (t : ℚ) ≤ cardPercentage card.limit (spentOf card.id) →
      notifKey card.id now.year now.month t ∉ sent0 →
      notifKey card.id now.year now.month t ∈
        (evalNotifications now cards spentOf sent0).2) ∧
    (evalNotifications demoDate [demoCard] (fun _ => 250) []).2 = [] ∧
    (evalNotifications demoDate [demoCard] (fun _ => 320) []).2 =
      [notifKey demoCard.id demoDate.year demoDate.month 30] ∧
    (evalNotifications demoDate [demoCard] (fun _ => 320)
      (evalNotifications demoDate [demoCard] (fun _ => 320) []).1).2 = [] := by
  refine ⟨?_, ?_, ?_, ?_, ?_, ?_, ?_⟩
  · intro hkey
    exact foldl_invariant (fun acc => key ∉ acc.2) _ cards (sent0, [])
      (by simp)
      (fun b a _ hb => foldl_invariant (fun acc => key ∉ acc.2) _ thresholds b hb
        (fun b' a' _ hb' =>
          notifStep_not_fired now sent0 spentOf a key hkey b' a' hb'))
  · exact foldl_invariant (fun acc => ∀ k ∈ acc.2, k ∈ acc.1) _ cards (sent0, [])
      (by simp)
      (fun b a _ hb => foldl_invariant (fun acc => ∀ k ∈ acc.2, k ∈ acc.1) _
        thresholds b hb
        (fun b' a' _ hb' => notifStep_snd_in_fst now sent0 spentOf a b' a' hb'))
  · intro hkey
    exact foldl_invariant (fun acc => key ∈ acc.1) _ cards (sent0, []) hkey
      (fun b a _ hb => notif_inner_fst_mono now sent0 spentOf a key thresholds b hb)
  · intro card hcard t ht hpct hnot
    exact notif_outer_fire now sent0 spentOf card t ht hpct hnot cards
      (sent0, []) hcard
  · with_unfolding_all decide
  · with_unfolding_all decide
  · with_unfolding_all decide

set_option maxRecDepth 100000 in
/-- Witness for `notifier_once_per_key`: after the 30% alert of the demo
scenario has been recorded, re-evaluating with unchanged spend emits
nothing for that key. -/
theorem notifier_once_per_key_witness :
    notifKey demoCard.id demoDate.year demoDate.month 30 ∈
      (evalNotifications demoDate [demoCard] (fun _ => 320) []).1 ∧
    notifKey demoCard.id demoDate.year demoDate.month 30 ∉
      (evalNotifications demoDate [demoCard] (fun _ => 320)
        ((evalNotifications demoDate [demoCard] (fun _ => 320) []).1)).2 := by
  constructor
  · with_unfolding_all decide
  · exact (notifier_once_per_key demoDate [demoCard] (fun _ => 320)
      ((evalNotifications demoDate [demoCard] (fun _ => 320) []).1)
      (notifKey demoCard.id demoDate.year demoDate.month 30)).1
      (by with_unfolding_all decide)

theorem categories_nodup : Categories.Nodup := by decide

theorem mem_categories (c : Category) : c ∈ Categories := by
  cases c <;> decide

theorem sum_map_update {α : Type _} [DecidableEq α] (l : List α) (f : α → ℚ)
    (a : α) (v : ℚ) (hnd : l.Nodup) (ha : a ∈ l) :
    (l.map fun c => if c = a then f a + v else f c).sum = (l.map f).sum + v := by
  induction l with
  | nil => simp at ha
  | cons b t ih =>
      obtain ⟨hbt, hndt⟩ := List.nodup_cons.mp hnd
      by_cases hba : b = a
      · simp only [List.map_cons, List.sum_cons, if_pos hba]
        have hmap : t.map (fun c => if c = a then f a + v else f c) = t.map f := by
          apply List.map_congr_left
          intro x hx
          rw [if_neg]
          intro hxa
          apply hbt
          rw [hba]
          exact hxa ▸ hx
        rw [hmap, hba]
        ring
      · have ha' : a ∈ t := by
          rcases List.mem_cons.mp ha with h | h
          · exact absurd h.symm hba
          · exact h
        simp only [List.map_cons, List.sum_cons, if_neg hba]
        rw [ih hndt ha']
        ring

theorem catSums_invariant (now : Date) (txs : List Transaction)
    (hpos : ∀ tx ∈ txs, 0 ≤ tx.amount) :
    (Categories.map (monthlyCatSums now txs).1).sum = (monthlyCatSums now txs).2 ∧
    ∀ c, 0 ≤ (monthlyCatSums now txs).1 c := by
  unfold monthlyCatSums
  refine foldl_invariant
    (fun acc => (Categories.map acc.1).sum = acc.2 ∧ ∀ c, 0 ≤ acc.1 c)
    (catSumStep now) txs (fun _ => 0, 0) ⟨by simp, fun c => le_refl 0⟩ ?_
  intro b tx htx hb
  unfold catSumStep
  by_cases hmon : inCurrentMonth now tx
  · rw [if_pos hmon]
    constructor
    · have := sum_map_update Categories b.1 tx.category tx.amount
        categories_nodup (mem_categories tx.category)
      simpa [this] using congrArg (· + tx.amount) hb.1
    · intro c
      by_cases hc : c = tx.category
      · simp only [hc, if_pos rfl]
        exact add_nonneg (hb.2 tx.category) (hpos tx htx)
      · simpa [if_neg hc] using hb.2 c
  · rw [if_neg hmon]
    exact hb

theorem filter_pos_sum (l : List Category) (f : Category → ℚ)
    (h : ∀ c ∈ l, 0 ≤ f c) :
    ((l.filter fun c => decide (0 < f c)).map f).sum = (l.map f).sum := by
  induction l with
  | nil => simp
  | cons a t ih =>
      have iht := ih (fun c hc => h c (List.mem_cons_of_mem a hc))
      by_cases hpos : 0 < f a
      · simp [List.filter_cons, hpos, iht]
      · have h0 : f a = 0 :=
          le_antisymm (not_lt.mp hpos) (h a (List.mem_cons_self a t))
        simp [List.filter_cons, hpos, iht, h0]

theorem sum_map_div_mul (l : List Category) (f : Category → ℚ) (T : ℚ) :
    (l.map fun c => f c / T * 100).sum = (l.map f).sum / T * 100 := by
  induction l with
  | nil => simp
  | cons a t ih =>
      simp only [List.map_cons, List.sum_cons, ih, add_div, add_mul]

/-- C4: whenever the current-month total is positive, the percentages in
the monthly category summary sum to exactly 100 (amounts being
nonnegative per the data model). -/
theorem monthlySummary_percentages (now : Date) (txs : List Transaction)
    (hpos : ∀ tx ∈ txs, 0 ≤ tx.amount)
    (htot : 0 < (monthlySummary now txs).2) :
    ((monthlySummary now txs).1.map PieEntry.percentage).sum = 100 := by
  obtain ⟨hsum, hnn⟩ := catSums_invariant now txs hpos
  have htot' : 0 < (monthlyCatSums now txs).2 := by
    simpa [monthlySummary] using htot
  simp only [monthlySummary]
  have hperm := List.mergeSort_perm
    ((Categories.filter (fun c => decide (0 < (monthlyCatSums now txs).1 c))).map
      (fun c => PieEntry.mk c ((monthlyCatSums now txs).1 c)
        (if 0 < (monthlyCatSums now txs).2 then
          (monthlyCatSums now txs).1 c / (monthlyCatSums now txs).2 * 100 else 0)))
    (fun a b => decide (b.value ≤ a.value))
  rw [sortPie, (hperm.map PieEntry.percentage).sum_eq]
  rw [List.map_map]
  have hcomp : (PieEntry.percentage ∘ fun c => PieEntry.mk c
      ((monthlyCatSums now txs).1 c)
      (if 0 < (monthlyCatSums now txs).2 then
        (monthlyCatSums now txs).1 c / (monthlyCatSums now txs).2 * 100 else 0)) =
      fun c => (monthlyCatSums now txs).1 c / (monthlyCatSums now txs).2 * 100 := by
    funext c
    simp [if_pos htot']
  rw [hcomp, sum_map_div_mul, filter_pos_sum _ _ (fun c _ => hnn c), hsum,
    div_self (ne_of_gt htot')]
  norm_num

set_option maxRecDepth 100000 in
/-- Witness for `monthlySummary_percentages`: the demo month (20 + 30)
has total 50 and percentages 40 and 60, summing to 100. -/
theorem monthlySummary_percentages_witness :
    (∀ tx ∈ demoTxs, 0 ≤ tx.amount) ∧
    0 < (monthlySummary demoDate demoTxs).2 ∧
    ((monthlySummary demoDate demoTxs).1.map PieEntry.percentage).sum = 100 := by
  have h1 : ∀ tx ∈ demoTxs, 0 ≤ tx.amount := by with_unfolding_all decide
  have h2 : 0 < (monthlySummary demoDate demoTxs).2 := by
    with_unfolding_all decide
  exact ⟨h1, h2, monthlySummary_percentages demoDate demoTxs h1 h2⟩

/-- C6: the card editor's last-4 check accepts exactly the strings of
four digit characters.  A failing string is rejected with a validation
error and nothing is committed; every committed card carries an accepted
last4.  In particular 123 and 12345 are rejected while 0427 passes. -/
theorem card_last4_rule (newId gradient : String) (cards : List Card)
    (cardToEdit : Option Card) (name last4 limit : String) :
    (last4Valid last4 = false →
      ∃ msg, handleSubmit newId gradient cards cardToEdit name last4 limit =
        .error msg) ∧
    (last4Valid last4 = true →
      handleSubmit newId gradient cards cardToEdit name last4 limit ≠
        .error "Last 4 digits must be exactly 4 numbers.") ∧
    (∀ c, handleSubmit newId gradient cards cardToEdit name last4 limit =
        .saved c → c.last4 = last4 ∧ last4Valid c.last4 = true) ∧
    last4Valid "0427" = true ∧ last4Valid "123" = false ∧
    last4Valid "12345" = false ∧
    handleSubmit "card-1" "g" [] none "Chase" "123" "50" =
      .error "Last 4 digits must be exactly 4 numbers." ∧
    handleSubmit "card-1" "g" [] none "Chase" "12345" "50" =
      .error "Last 4 digits must be exactly 4 numbers." := by
  refine ⟨?_, ?_, ?_, by decide, by decide, by decide,
    by with_unfolding_all decide, by with_unfolding_all decide⟩
  · intro h
    by_cases h1 : (name.trim = "" ∨ last4 = "" ∨ limit = "")
    · exact ⟨"All fields are required.", by
        simp only [handleSubmit]
        rw [if_pos h1]⟩
    · exact ⟨"Last 4 digits must be exactly 4 numbers.", by
        simp only [handleSubmit]
        rw [if_neg h1, if_pos h]⟩
  · intro h heq
    simp only [handleSubmit] at heq
    split_ifs at heq with h1 h2 h3 h4 h5
    · exact absurd heq (by decide)
    · rw [h] at h2
      exact Bool.noConfusion h2
    · exact absurd heq (by decide)
    · exact absurd heq (by decide)
    · exact absurd heq (by decide)
  · intro c heq
    simp only [handleSubmit] at heq
    split_ifs at heq with h1 h2 h3 h4 h5
    injection heq with h
    subst h
    cases hb : last4Valid last4
    · exact absurd hb h2
    · exact ⟨rfl, rfl⟩

/-- Witness for `card_last4_rule`: the three-digit string is refused and
the submission produces a validation error. -/
theorem card_last4_rule_witness :
    last4Valid "123" = false ∧
    (∃ msg, handleSubmit "card-9" "g" [demoCard] none "Amex" "123" "75" =
      .error msg) :=
  ⟨by decide,
   (card_last4_rule "card-9" "g" [demoCard] none "Amex" "123" "75").1 (by decide)⟩

theorem any_dupName_iff (cards : List Card) (cardToEdit : Option Card)
    (s : String) :
    (cards.any fun card => (cardToEdit.all fun ce => card.id != ce.id) &&
        card.name.trim.toLower == s) = true ↔
      ∃ c ∈ cards, (∀ ce, cardToEdit = some ce → c.id ≠ ce.id) ∧
        c.name.trim.toLower = s := by
  rw [List.any_eq_true]
  constructor
  · rintro ⟨c, hc, hp⟩
    rw [Bool.and_eq_true] at hp
    refine ⟨c, hc, ?_, by simpa using hp.2⟩
    intro ce hce
    have := hp.1
    rw [hce] at this
    simpa using this
  · rintro ⟨c, hc, hid, hname⟩
    refine ⟨c, hc, ?_⟩
    rw [Bool.and_eq_true]
    refine ⟨?_, by simpa using hname⟩
    cases hEd : cardToEdit with
    | none => rfl
    | some ce => simpa using hid ce hEd

/-- C7: with the earlier checks passing, a submitted card whose trimmed
name case-insensitively matches another existing card is rejected with
the name-uniqueness error; when every name match is the record being
edited, that error is not produced. -/
theorem card_name_uniqueness (newId gradient : String) (cards : List Card)
    (cardToEdit : Option Card) (name last4 limit : String)
    (h1 : ¬(name.trim = "" ∨ last4 = "" ∨ limit = ""))
    (h2 : ¬(last4Valid last4 = false))
    (h3 : ¬(jsNonPos (parseFloat limit) = true)) :
    ((∃ c ∈ cards, (∀ ce, cardToEdit = some ce → c.id ≠ ce.id) ∧
        c.name.trim.toLower = name.trim.toLower) →
      handleSubmit newId gradient cards cardToEdit name last4 limit =
        .error "A card with this name already exists.") ∧
    ((∀ c ∈ cards, c.name.trim.toLower = name.trim.toLower →
        ∃ ce, cardToEdit = some ce ∧ c.id = ce.id) →
      handleSubmit newId gradient cards cardToEdit name last4 limit ≠
        .error "A card with this name already exists.") := by
  constructor
  · intro hex
    simp only [handleSubmit]
    rw [if_neg h1, if_neg h2, if_neg h3,
      if_pos ((any_dupName_iff cards cardToEdit name.trim.toLower).mpr hex)]
  · intro hall
    have hfalse : (cards.any fun card =>
        (cardToEdit.all fun ce => card.id != ce.id) &&
          card.name.trim.toLower == name.trim.toLower) = false := by
      rw [← Bool.not_eq_true, any_dupName_iff cards cardToEdit name.trim.toLower]
      rintro ⟨c, hc, hid, hname⟩
      obtain ⟨ce, hce, hceid⟩ := hall c hc hname
      exact hid ce hce hceid
    simp only [handleSubmit]
    rw [if_neg h1, if_neg h2, if_neg h3, if_neg (by simp [hfalse])]
    split_ifs
    · exact fun heq => absurd heq (by decide)
    · exact fun heq => SubmitResult.noConfusion heq

/-- Witness for `card_name_uniqueness`: submitting a new card whose name,
after trimming and lowercasing, collides with the existing demo card is
rejected with the uniqueness error. -/
theorem card_name_uniqueness_witness :
    (¬(" chase freedom ".trim = "" ∨ "9999" = "" ∨ "500" = "")) ∧
    (∃ c ∈ [demoCard2], (∀ ce, (none : Option Card) = some ce → c.id ≠ ce.id) ∧
      c.name.trim.toLower = " chase freedom ".trim.toLower) ∧
    handleSubmit "card-9" "g" [demoCard2] none " chase freedom " "9999" "500" =
      .error "A card with this name already exists." := by
  have h1 : ¬(" chase freedom ".trim = "" ∨ "9999" = "" ∨ "500" = "") := by
    with_unfolding_all decide
  have h2 : ¬(last4Valid "9999" = false) := by decide
  have h3 : ¬(jsNonPos (parseFloat "500") = true) := by
    with_unfolding_all decide
  have hex : ∃ c ∈ [demoCard2], (∀ ce, (none : Option Card) = some ce →
      c.id ≠ ce.id) ∧ c.name.trim.toLower = " chase freedom ".trim.toLower := by
    refine ⟨demoCard2, List.mem_singleton.mpr rfl, fun ce h => Option.noConfusion h,
      ?_⟩
    with_unfolding_all decide
  exact ⟨h1, hex,
    (card_name_uniqueness "card-9" "g" [demoCard2] none " chase freedom "
      "9999" "500" h1 h2 h3).1 hex⟩

/-- Counterexample to C8 as stated: the entered limit string abc does not
parse to a positive number (`parseFloat` yields `NaN`), yet the
submission is not rejected — `NaN <= 0` is false, so the card is
committed with a `NaN` limit. -/
theorem card_limit_nan_committed :
    parseFloat "abc" = none ∧
    handleSubmit "card-1" "g" [] none "MyCard" "1234" "abc" =
      .saved { id := "card-1", name := "MyCard", last4 := "1234",
               limit := none, gradient := "g" } := by
  constructor
  · with_unfolding_all decide
  · with_unfolding_all decide

/-- C8 (amended): a limit that parses to a number not strictly greater
than 0 is rejected with the limit validation error (once the earlier
checks pass); every committed card's limit is the parse of the entered
string, and is positive whenever that parse is a number — but an entry
whose parse is `NaN` passes the guard and is committed. -/
theorem card_limit_guard (newId gradient : String) (cards : List Card)
    (cardToEdit : Option Card) (name last4 limit : String) :
    ((∃ v, parseFloat limit = some v ∧ v ≤ 0) →
      ¬(name.trim = "" ∨ last4 = "" ∨ limit = "") →
      ¬(last4Valid last4 = false) →
      handleSubmit newId gradient cards cardToEdit name last4 limit =
        .error "Limit must be a positive number.") ∧
    (∀ c, handleSubmit newId gradient cards cardToEdit name last4 limit =
        .saved c →
      c.limit = parseFloat limit ∧ ∀ v, parseFloat limit = some v → 0 < v) := by
  constructor
  · rintro ⟨v, hv, hvle⟩ h1 h2
    have h3 : jsNonPos (parseFloat limit) = true := by
      rw [hv]
      simpa [jsNonPos] using hvle
    simp only [handleSubmit]
    rw [if_neg h1, if_neg h2, if_pos h3]
  · intro c heq
    simp only [handleSubmit] at heq
    split_ifs at heq with hh1 hh2 hh3 hh4 hh5
    injection heq with h
    subst h
    refine ⟨rfl, ?_⟩
    intro v hv
    rw [hv] at hh3
    simp [jsNonPos] at hh3
    exact hh3

/-- Witness for `card_limit_guard`: an entered limit of 0 parses to the
nonpositive number 0 and the submission is rejected with the limit
validation error. -/
theorem card_limit_guard_witness :
    (∃ v, parseFloat "0" = some v ∧ v ≤ 0) ∧
    handleSubmit "card-1" "g" [] none "MyCard" "1234" "0" =
      .error "Limit must be a positive number." := by
  have hex : ∃ v, parseFloat "0" = some v ∧ v ≤ 0 :=
    ⟨0, by with_unfolding_all decide, le_refl 0⟩
  exact ⟨hex, (card_limit_guard "card-1" "g" [] none "MyCard" "1234" "0").1 hex
    (by with_unfolding_all decide) (by decide)⟩
